import Mathlib

/-!
Verification of the `serde_dbgfmt` debug-format deserializer.

This file gives a shallow embedding, in Lean 4, of the Rust sources under
`src/` (the lexer in `src/lex.rs`, the deserializer in `src/de.rs`, the error
model in `src/error.rs`) and proves properties about the embedding.

Modelling conventions:
* Rust string slices become `List Char`.  All inputs appearing in the
  concrete theorems below are ASCII, where Rust's byte indices coincide with
  character indices, so byte-level operations of the source
  (`find`, `as_bytes().get`, `get(..2)`) are modelled at the character level.
* Machine integers become `Nat`/`Int` with explicit range checks at the
  target bit width, mirroring Rust's overflow-checked `from_str_radix`.
* The lexer's string-scanning loop in the source terminates because each
  `continue` advances by at least one byte; the embedding makes this explicit
  with a structural fuel argument that is always sufficient.
* The external collaborators (the `serde` visitor machinery and the
  `unicode_ident` crate) are not part of `src/`; the definitions modelling
  them carry a `Modelled from the spec:` note and follow the spec's words.
-/

namespace DbgFmt

/-- Turn a string literal into the `List Char` the model works over. -/
def str (s : String) : List Char := s.data

/-- Rust `char::is_whitespace` (used via `str::trim_start` in
`Lexer::skip_whitespace`): the Unicode `White_Space` property. -/
def isRustWs (c : Char) : Bool :=
  ('\u0009' ≤ c && c ≤ '\u000D') || c = ' ' || c = '\u0085' ||
  c = '\u00A0' || c = '\u1680' || ('\u2000' ≤ c && c ≤ '\u200A') ||
  c = '\u2028' || c = '\u2029' || c = '\u202F' || c = '\u205F' ||
  c = '\u3000'

/-- Modelled from the spec: the `unicode_ident` crate's `is_xid_start` is
external to `src/`; the spec allows "ASCII alnum+`_` if full Unicode is not
required", so the model uses the ASCII identifier-start class. -/
def isXidStart (c : Char) : Bool :=
  ('a' ≤ c && c ≤ 'z') || ('A' ≤ c && c ≤ 'Z')

/-- Modelled from the spec: ASCII identifier-continuation class standing in
for the external `unicode_ident::is_xid_continue`. -/
def isXidContinue (c : Char) : Bool :=
  isXidStart c || ('0' ≤ c && c ≤ '9') || c = '_'

/-- Rust `char::is_ascii_digit`. -/
def isAsciiDigit (c : Char) : Bool := '0' ≤ c && c ≤ '9'

/-- Rust `char::is_ascii_hexdigit`. -/
def isAsciiHexDigit (c : Char) : Bool :=
  isAsciiDigit c || ('a' ≤ c && c ≤ 'f') || ('A' ≤ c && c ≤ 'F')

/-- Rust `char::to_digit(radix)`. -/
def toDigit (radix : Nat) (c : Char) : Option Nat :=
  if isAsciiDigit c then
    if c.toNat - 48 < radix then some (c.toNat - 48) else none
  else if 'a' ≤ c && c ≤ 'z' then
    if c.toNat - 97 + 10 < radix then some (c.toNat - 97 + 10) else none
  else if 'A' ≤ c && c ≤ 'Z' then
    if c.toNat - 65 + 10 < radix then some (c.toNat - 65 + 10) else none
  else none

/-! ## Token and error data model (`src/lex.rs`, `src/error.rs`) -/

/-- `TokenKind` from `src/lex.rs`. -/
inductive TokenKind where
  | ident
  | punct
  | integer
  | float
  | string
  | char
  | eof
deriving DecidableEq

/-- `Token` from `src/lex.rs`: a kind plus the exact source span. -/
structure Token where
  kind : TokenKind
  value : List Char
deriving DecidableEq

/-- `Expected` from `src/error.rs`. -/
inductive Expected where
  | token (k : TokenKind)
  | punctE (c : Char)
  | custom (s : List Char)
deriving DecidableEq

/-- `LexerError` from `src/error.rs`: the offending text and a description of
what was expected. -/
structure LexErr where
  found : List Char
  expected : Expected
deriving DecidableEq

/-- `first_char` from `src/lex.rs`: the first character of the remaining
input as a slice, or the empty slice. -/
def firstChar (s : List Char) : List Char :=
  match s with
  | [] => []
  | c :: _ => [c]

/-! ## The lexer (`src/lex.rs`)

Each sub-parser takes the remaining input and returns the token kind together
with the input remaining after the consumed prefix, or a lexer error, exactly
as the corresponding `Lexer` method mutates `self.data`. -/

/-- `Lexer::skip_whitespace` (`self.data.trim_start()`). -/
def skipWs (s : List Char) : List Char := s.dropWhile isRustWs

/-- Rust `str::find(char)` restricted to the character level: index of the
first occurrence. -/
def findQ (q : Char) : List Char → Option Nat
  | [] => none
  | c :: cs => if c = q then some 0 else (findQ q cs).map (· + 1)

/-- The terminator-scanning loop shared by `Lexer::parse_string` and
`Lexer::parse_char`: repeatedly find the next quote, advance to it, and
continue past it when the byte at offset `idx - 1` of the advanced data is a
backslash (the source reads that offset after advancing; `idx = 0` makes the
wrapped index read out of bounds, which compares unequal to `\`).  The fuel
argument makes the loop structural; `data.length + 1` always suffices because
every `continue` advances by at least one character. -/
def quoteScan (q : Char) : Nat → List Char → List Char
  | 0, data => data
  | fuel + 1, data =>
    match findQ q data with
    | none => data
    | some idx =>
      let data' := data.drop idx
      if idx ≠ 0 ∧ data'.get? (idx - 1) = some '\x5c' then
        quoteScan q fuel data'
      else data'

/-- `Lexer::parse_string`. -/
def parseStringTk (s : List Char) : Except LexErr (TokenKind × List Char) :=
  match s with
  | '\x22' :: rest =>
    let data := quoteScan '\x22' (rest.length + 1) rest
    match data with
    | '\x22' :: rest' => .ok (.string, rest')
    | _ => .error ⟨data, .token .string⟩
  | _ => .error ⟨firstChar s, .token .string⟩

/-- `Lexer::parse_char`. -/
def parseCharTk (s : List Char) : Except LexErr (TokenKind × List Char) :=
  match s with
  | '\x27' :: rest =>
    let data := quoteScan '\x27' (rest.length + 1) rest
    match data with
    | '\x27' :: rest' => .ok (.char, rest')
    | _ => .error ⟨data, .token .char⟩
  | _ => .error ⟨firstChar s, .token .char⟩

/-- `Lexer::parse_ident`: one identifier-start character followed by the
maximal run of identifier-continuation characters. -/
def parseIdentTk (s : List Char) : Except LexErr (TokenKind × List Char) :=
  match s with
  | c :: rest =>
    if isXidStart c then .ok (.ident, rest.dropWhile isXidContinue)
    else .error ⟨firstChar s, .token .ident⟩
  | [] => .error ⟨[], .token .ident⟩

/-- `Lexer::parse_once`: consume exactly one character matching the
predicate, or fail with the given expectation. -/
def parseOnce (expected : Expected) (pred : Char → Bool) (s : List Char) :
    Except LexErr (List Char) :=
  match s with
  | c :: rest => if pred c then .ok rest else .error ⟨firstChar s, expected⟩
  | [] => .error ⟨[], expected⟩

/-- `Lexer::parse_repeated`: consume the maximal run matching the predicate. -/
def parseRepeated (pred : Char → Bool) (s : List Char) : List Char :=
  s.dropWhile pred

/-- The decimal continuation of `Lexer::parse_number` after the first digit
has been consumed: a digit run, then optionally `.digits` and an exponent;
the token is `Float` when either extension is present, `Integer` otherwise. -/
def parseNumberTail (rest0 : List Char) : Except LexErr (TokenKind × List Char) :=
  let rest := parseRepeated isAsciiDigit rest0
  match rest.head? with
  | some c =>
    if c = '.' ∨ c = 'e' ∨ c = 'E' then
      let step1 : Except LexErr (List Char) :=
        match rest with
        | '.' :: r =>
          match parseOnce (.token .float) isAsciiDigit r with
          | .error e => .error e
          | .ok r' => .ok (parseRepeated isAsciiDigit r')
        | _ => .ok rest
      match step1 with
      | .error e => .error e
      | .ok rest2 =>
        match rest2 with
        | e :: r =>
          if e = 'e' ∨ e = 'E' then
            let r1 := match r with
              | c' :: r' => if c' = '+' ∨ c' = '-' then r' else c' :: r'
              | [] => []
            match parseOnce (.token .float) isAsciiDigit r1 with
            | .error er => .error er
            | .ok r' => .ok (.float, parseRepeated isAsciiDigit r')
          else .ok (.float, rest2)
        | [] => .ok (.float, rest2)
    else .ok (.integer, rest)
  | none => .ok (.integer, rest)

/-- `Lexer::parse_number`.  A `0x`/`0X`/`0o`/`0O`/`0b`/`0B` prefix switches to
hex-digit-class scanning and the token is unconditionally `Integer`; without
a prefix, the decimal continuation `parseNumberTail`. -/
def parseNumberTk (s : List Char) : Except LexErr (TokenKind × List Char) :=
  match s with
  | [] => .error ⟨[], .custom (str "a number")⟩
  | c :: rest =>
    if c = '0' then
      match rest with
      | p :: rest' =>
        if p = 'x' ∨ p = 'X' ∨ p = 'o' ∨ p = 'O' ∨ p = 'b' ∨ p = 'B' then
          match parseOnce (.token .integer) isAsciiHexDigit rest' with
          | .error e => .error e
          | .ok rest'' => .ok (.integer, parseRepeated isAsciiHexDigit rest'')
        else parseNumberTail rest
      | [] => parseNumberTail rest
    else if '1' ≤ c ∧ c ≤ '9' then parseNumberTail rest
    else .error ⟨firstChar s, .custom (str "a number")⟩

/-- `Lexer::parse_dotdot`: `.` must be followed by exactly one more `.`. -/
def parseDotdotTk (s : List Char) : Except LexErr (TokenKind × List Char) :=
  match parseOnce (.custom (str "..")) (· = '.') s with
  | .error e => .error e
  | .ok r =>
    match parseOnce (.custom (str "..")) (· = '.') r with
    | .error e => .error e
    | .ok r' => .ok (.punct, r')

/-- Is the character one of the single-character punctuation tokens? -/
def isPunctChar (c : Char) : Bool :=
  c = '\x7b' || c = '\x7d' || c = '[' || c = ']' || c = ':' || c = ',' ||
  c = '(' || c = ')' || c = '+' || c = '-'

/-- The dispatch in `Lexer::parse_token`, after whitespace skipping. -/
def parseTokenKind (d : List Char) : Except LexErr (TokenKind × List Char) :=
  match d with
  | [] => .ok (.eof, [])
  | c :: rest =>
    if c = '\x22' then parseStringTk d
    else if c = '\x27' then parseCharTk d
    else if isAsciiDigit c then parseNumberTk d
    else if isXidStart c then parseIdentTk d
    else if c = '.' then parseDotdotTk d
    else if isPunctChar c then .ok (.punct, rest)
    else .error ⟨firstChar d, .custom (str "a valid token")⟩

/-- `Lexer::parse_token`: skip whitespace, classify and consume one token,
returning its kind and exact source span together with the remaining input.
The span is the consumed prefix, as computed by `parse_consumed`. -/
def parseToken (s : List Char) : Except LexErr (Token × List Char) :=
  let d := skipWs s
  match parseTokenKind d with
  | .ok (k, rest) => .ok (⟨k, d.take (d.length - rest.length)⟩, rest)
  | .error e => .error e

/-! ## Numeric reconstruction (Rust `from_str_radix`, used by `src/de.rs`)

Rust's `{integer}::from_str_radix` is overflow-checked against the bounds of
the target type: an optional `+`/`-` sign (a `-` only for signed types), then
at least one digit in the given radix, accumulated with checked
multiply-and-add.  The model carries the bounds `lo`/`hi` explicitly. -/

/-- `std::num::IntErrorKind`. -/
inductive IntErrorKind where
  | empty
  | invalidDigit
  | posOverflow
  | negOverflow
deriving DecidableEq

/-- The checked digit-accumulation loop of `from_str_radix`. -/
def runDigits (pos : Bool) (lo hi : Int) (radix : Nat) :
    Int → List Char → Except IntErrorKind Int
  | acc, [] => .ok acc
  | acc, c :: cs =>
    match toDigit radix c with
    | none => .error .invalidDigit
    | some d =>
      let acc1 := acc * radix
      if acc1 < lo ∨ hi < acc1 then
        .error (if pos then .posOverflow else .negOverflow)
      else
        let acc2 := if pos then acc1 + d else acc1 - d
        if acc2 < lo ∨ hi < acc2 then
          .error (if pos then .posOverflow else .negOverflow)
        else runDigits pos lo hi radix acc2 cs

/-- Rust `from_str_radix` with explicit type bounds.  `signedTy` tells
whether the target type is signed (a leading `-` is only legal then). -/
def fromStrRadix (signedTy : Bool) (lo hi : Int) (radix : Nat)
    (s : List Char) : Except IntErrorKind Int :=
  match s with
  | [] => .error .empty
  | c :: rest =>
    if (c = '+' ∨ c = '-') ∧ rest = [] then .error .invalidDigit
    else if c = '+' then runDigits true lo hi radix 0 rest
    else if c = '-' then
      if signedTy then runDigits false lo hi radix 0 rest
      else .error .invalidDigit
    else runDigits true lo hi radix 0 s

/-- `from_str_radix` at an unsigned target of bit width `w`. -/
def fromStrRadixU (w radix : Nat) (s : List Char) : Except IntErrorKind Int :=
  fromStrRadix false 0 (2 ^ w - 1) radix s

/-- `from_str_radix` at a signed target of bit width `w`. -/
def fromStrRadixI (w radix : Nat) (s : List Char) : Except IntErrorKind Int :=
  fromStrRadix true (-(2 ^ (w - 1))) (2 ^ (w - 1) - 1) radix s

/-- Rust `u*::ilog10`/`i*::ilog10` on a positive argument, written with
structural fuel so that it evaluates by kernel reduction. -/
def ilog10F : Nat → Nat → Nat
  | 0, _ => 0
  | fuel + 1, n => if n < 10 then 0 else 1 + ilog10F fuel (n / 10)

/-- The length of the stack buffer in `deserialize_signed`:
`<$int>::MAX.ilog10() as usize + 2` for the signed type of width `w`. -/
def storageLen (w : Nat) : Nat := ilog10F 64 (2 ^ (w - 1) - 1) + 2

/-- Rust `str::trim_matches('0')`: removes the character from both ends. -/
def trimMatches (c : Char) (s : List Char) : List Char :=
  (((s.dropWhile (· = c)).reverse).dropWhile (· = c)).reverse

/-! ## Deserializer data model (`src/de.rs`, `src/error.rs`) -/

/-- `Sign` from `src/de.rs`. -/
inductive Sign where
  | positive
  | negative
deriving DecidableEq

/-- `Integer` from `src/de.rs`: sign, the integer token's text, and the span
covering the sign and the digits (used in error messages). -/
structure IntLit where
  sign : Sign
  value : List Char
  span : List Char
deriving DecidableEq

/-- The public `Error` of `src/error.rs` (`ErrorDetail`), restricted to the
variants reachable from the operations modelled here.  `unknownVariant`
models the message produced by serde's `Error::unknown_variant`, which the
crate stores as `Custom` text (Modelled from the spec: the serde framework is
external to `src/`; the spec says the error names the found variant and the
legal alternatives).  `fuelExhausted` is a model artifact of the structural
fuel and is unreachable for sufficient fuel. -/
inductive Err where
  | custom (msg : List Char)
  | lexer (e : LexErr)
  | parseInt (value : List Char) (error : IntErrorKind)
  | invalidStringLiteral (message : List Char)
  | unknownVariant (found : List Char) (allowed : List (List Char))
  | fuelExhausted
deriving DecidableEq

/-- A decoded value, as assembled by the caller-supplied visitor.  Modelled
from the spec: the visitor framework is external to `src/`; the target
type's construction callbacks are represented by building this universal
value. -/
inductive DVal where
  | uintV (n : Nat)
  | intV (n : Int)
  | optV (v : Option DVal)
  | listV (vs : List DVal)
  | tupleV (vs : List DVal)
  | structV (fields : List (List Char × DVal))
  | mapV (pairs : List (DVal × DVal))

/-- The schema the caller supplies (Modelled from the spec: the external
schema/visitor collaborator "declares field/variant names" and the expected
shape; each constructor selects the corresponding `deserialize_*` entry
point of `src/de.rs`). -/
inductive Schema where
  | uint (w : Nat)
  | sint (w : Nat)
  | option (elem : Schema)
  | seq (elem : Schema)
  | tuple (elems : List Schema)
  | structS (name : List Char) (fields : List (List Char × Schema))
  | mapS (key value : Schema)

/-! ## Deserializer primitives (`src/de.rs`) -/

/-- `Deserializer::peek`: lex one token from a cloned lexer; the cursor is
not advanced. -/
def peekT (s : List Char) : Except Err Token :=
  match parseToken s with
  | .ok (t, _) => .ok t
  | .error e => .error (.lexer e)

/-- `Deserializer::parse_ident`. -/
def parseIdentE (s : List Char) : Except Err (List Char × List Char) :=
  match parseToken s with
  | .error e => .error (.lexer e)
  | .ok (t, r) =>
    if t.kind = .ident then .ok (t.value, r)
    else .error (.lexer ⟨t.value, .token .ident⟩)

/-- `Deserializer::parse_ident_exact`. -/
def parseIdentExact (expected : List Char) (s : List Char) :
    Except Err (List Char) :=
  match parseToken s with
  | .error e => .error (.lexer e)
  | .ok (t, r) =>
    if t.kind = .ident then
      if t.value = expected then .ok r
      else .error (.lexer ⟨t.value, .custom expected⟩)
    else .error (.lexer ⟨t.value, .token .ident⟩)

/-- `Deserializer::parse_punct_ex`: one punctuation token whose text
satisfies the given check. -/
def parsePunctEx (expected : Expected) (check : List Char → Bool)
    (s : List Char) : Except Err (List Char × List Char) :=
  match parseToken s with
  | .error e => .error (.lexer e)
  | .ok (t, r) =>
    if t.kind = .punct then
      if check t.value then .ok (t.value, r)
      else .error (.lexer ⟨t.value, expected⟩)
    else .error (.lexer ⟨t.value, expected⟩)

/-- `Deserializer::parse_punct`: one exact punctuation character. -/
def parsePunct (c : Char) (s : List Char) : Except Err (List Char) :=
  match parsePunctEx (.punctE c) (· = [c]) s with
  | .ok (_, r) => .ok r
  | .error e => .error e

/-- `Deserializer::parse_integer`: an optional `+`/`-` punctuation token, then
an `Integer` token.  The span joins the sign token with the digit token
(including any characters between them), as `join_spans` does. -/
def parseInteger (s : List Char) : Except Err (IntLit × List Char) :=
  match parseToken s with
  | .error e => .error (.lexer e)
  | .ok (t1, r1) =>
    if t1.kind = .punct ∧ (t1.value = str "+" ∨ t1.value = str "-") then
      let sign := if t1.value = str "+" then Sign.positive else Sign.negative
      match parseToken r1 with
      | .error e => .error (.lexer e)
      | .ok (t2, r2) =>
        if t2.kind = .integer then
          .ok (⟨sign, t2.value, t1.value ++ r1.take (r1.length - r2.length)⟩, r2)
        else .error (.lexer ⟨t2.value, .token .integer⟩)
    else
      if t1.kind = .integer then .ok (⟨.positive, t1.value, t1.value⟩, r1)
      else .error (.lexer ⟨t1.value, .token .integer⟩)

/-- The radix probe shared by `deserialize_unsigned` and
`deserialize_signed`: `int.value.get(..2)` matched against the radix
prefixes. -/
def radixProbe (value : List Char) : List Char × Nat :=
  match value with
  | '0' :: c :: rest =>
    if c = 'x' ∨ c = 'X' then (rest, 16)
    else if c = 'o' ∨ c = 'O' then (rest, 8)
    else if c = 'b' ∨ c = 'B' then (rest, 2)
    else (value, 10)
  | _ => (value, 10)

/-- `deserialize_unsigned` at bit width `w` (the macro instantiated at
`u8`/`u16`/`u32`/`u64`/`u128`): a negative sign always takes the
`"-1".parse()` arm, which fails; otherwise the radix prefix selects the
radix and the remaining digits go through checked unsigned parsing. -/
def dUnsigned (w : Nat) (s : List Char) : Except Err (DVal × List Char) :=
  match parseInteger s with
  | .error e => .error e
  | .ok (int, r) =>
    let result :=
      if int.sign = .negative then fromStrRadixU w 10 (str "-1")
      else
        match radixProbe int.value with
        | (rest, 16) => fromStrRadixU w 16 rest
        | (rest, 8) => fromStrRadixU w 8 rest
        | (rest, 2) => fromStrRadixU w 2 rest
        | _ => fromStrRadixU w 10 int.value
    match result with
    | .ok v => .ok (.uintV v.toNat, r)
    | .error e => .error (.parseInt int.span e)

/-- `deserialize_signed` at bit width `w` (the macro instantiated at
`i8`/`i16`/`i32`/`i64`/`i128`): strip the radix prefix, trim `'0'` with
`trim_matches` (empty result becomes `"0"`), then re-synthesize
`sign ++ digits` bounded by the stack-buffer capacity and run it through the
checked signed parser for that radix. -/
def dSigned (w : Nat) (s : List Char) : Except Err (DVal × List Char) :=
  match parseInteger s with
  | .error e => .error e
  | .ok (int, r) =>
    let (rest, radix) := radixProbe int.value
    let trimmed0 := trimMatches '0' rest
    let trimmed := if trimmed0 = [] then str "0" else trimmed0
    let len := min trimmed.length (storageLen w - 1)
    let signChar := if int.sign = .positive then '+' else '-'
    let valueStr := signChar :: trimmed.take len
    match fromStrRadixI w radix valueStr with
    | .ok v => .ok (.intV v, r)
    | .error e => .error (.parseInt int.span e)

/-! ## The recursive decoder

`runF` is the single fuel-indexed recursion covering `deserialize_*` for the
shapes above together with the element loops of `DebugSeqAccess`,
`DebugTupleAccess`, `DebugStructAccess` and `DebugMapAccess`.  The `Req`
index says which entry point runs; accumulators carry the partial value just
as the serde visitor does. -/

/-- A pending request of the decoder: either one value of a given schema, or
one of the in-progress composite loops. -/
inductive Req where
  | one (sch : Schema)
  | seqE (elem : Schema) (acc : List DVal)
  | tupE (elems : List Schema) (acc : List DVal)
  | strF (fields : List (List Char × Schema)) (acc : List (List Char × DVal))
  | mapP (key value : Schema) (acc : List (DVal × DVal))

/-- The trailing-separator step shared by the access loops: after an element,
peek; if the next token is one of the given closers, consume nothing,
otherwise require a `,`. -/
def sepCheck (closers : List (List Char)) (s : List Char) :
    Except Err (List Char) :=
  match peekT s with
  | .error e => .error e
  | .ok t =>
    if t.kind = .punct ∧ t.value ∈ closers then .ok s
    else parsePunct ',' s

/-- One fuel-indexed step of the decoder; see `Req`. -/
def runF : Nat → Req → List Char → Except Err (DVal × List Char)
  | 0, _, _ => .error .fuelExhausted
  | fuel + 1, .one sch, s =>
    match sch with
    | .uint w => dUnsigned w s
    | .sint w => dSigned w s
    | .option elem =>
      match parseIdentE s with
      | .error e => .error e
      | .ok (ident, r) =>
        if ident = str "Some" then
          match parsePunct '\x7b' r with
          | .error e => .error e
          | .ok r1 =>
            match runF fuel (.one elem) r1 with
            | .error e => .error e
            | .ok (v, r2) =>
              match parsePunct '\x7d' r2 with
              | .error e => .error e
              | .ok r3 => .ok (.optV (some v), r3)
        else if ident = str "None" then .ok (.optV none, r)
        else .error (.unknownVariant ident [str "Some", str "None"])
    | .seq elem =>
      match parsePunctEx (.custom (str "`[` or `\x7b`"))
          (fun v => v = str "[" ∨ v = str "\x7b") s with
      | .error e => .error e
      | .ok (opener, r) =>
        match runF fuel (.seqE elem []) r with
        | .error e => .error e
        | .ok (v, r1) =>
          match parsePunct (if opener = str "[" then ']' else '\x7d') r1 with
          | .error e => .error e
          | .ok r2 => .ok (v, r2)
    | .tuple elems =>
      match parsePunct '(' s with
      | .error e => .error e
      | .ok r =>
        match runF fuel (.tupE elems []) r with
        | .error e => .error e
        | .ok (v, r1) =>
          match parsePunct ')' r1 with
          | .error e => .error e
          | .ok r2 => .ok (v, r2)
    | .structS name fields =>
      match parseIdentExact name s with
      | .error e => .error e
      | .ok r =>
        match parsePunct '\x7b' r with
        | .error e => .error e
        | .ok r1 =>
          match runF fuel (.strF fields []) r1 with
          | .error e => .error e
          | .ok (v, r2) =>
            match parsePunct '\x7d' r2 with
            | .error e => .error e
            | .ok r3 => .ok (v, r3)
    | .mapS key value =>
      match parsePunct '\x7b' s with
      | .error e => .error e
      | .ok r =>
        match runF fuel (.mapP key value []) r with
        | .error e => .error e
        | .ok (v, r1) =>
          match parsePunct '\x7d' r1 with
          | .error e => .error e
          | .ok r2 => .ok (v, r2)
  | fuel + 1, .seqE elem acc, s =>
    match peekT s with
    | .error e => .error e
    | .ok t =>
      if t.kind = .punct ∧ (t.value = str "]" ∨ t.value = str "\x7d") then
        .ok (.listV acc.reverse, s)
      else
        match runF fuel (.one elem) s with
        | .error e => .error e
        | .ok (v, r) =>
          match sepCheck [str "]", str "\x7d"] r with
          | .error e => .error e
          | .ok r1 => runF fuel (.seqE elem (v :: acc)) r1
  | fuel + 1, .tupE elems acc, s =>
    match elems with
    | [] => .ok (.tupleV acc.reverse, s)
    | elem :: rest =>
      match peekT s with
      | .error e => .error e
      | .ok t =>
        if t.kind = .punct ∧ t.value = str ")" then
          .error (.custom (str "invalid length"))
        else
          match runF fuel (.one elem) s with
          | .error e => .error e
          | .ok (v, r) =>
            match sepCheck [str ")"] r with
            | .error e => .error e
            | .ok r1 => runF fuel (.tupE rest (v :: acc)) r1
  | fuel + 1, .strF fields acc, s =>
    match peekT s with
    | .error e => .error e
    | .ok t =>
      if t.kind = .punct ∧ t.value = str "\x7d" then
        match fields with
        | [] => .ok (.structV acc.reverse, s)
        | _ :: _ => .error (.custom (str "missing field"))
      else if t.kind = .punct ∧ t.value = str ".." then
        match parsePunctEx (.custom (str "..")) (· = str "..") s with
        | .error e => .error e
        | .ok (_, r) =>
          match fields with
          | [] => .ok (.structV acc.reverse, r)
          | _ :: _ => .error (.custom (str "missing field"))
      else
        match fields with
        | [] => .error (.custom (str "unknown field"))
        | (fname, fsch) :: rest =>
          match parseIdentE s with
          | .error e => .error e
          | .ok (ident, r) =>
            if ident = fname then
              match parsePunct ':' r with
              | .error e => .error e
              | .ok r1 =>
                match runF fuel (.one fsch) r1 with
                | .error e => .error e
                | .ok (v, r2) =>
                  match sepCheck [str "\x7d"] r2 with
                  | .error e => .error e
                  | .ok r3 => runF fuel (.strF rest ((fname, v) :: acc)) r3
            else .error (.custom (str "unknown field"))
  | fuel + 1, .mapP key value acc, s =>
    match peekT s with
    | .error e => .error e
    | .ok t =>
      if t.kind = .punct ∧ t.value = str "\x7d" then
        .ok (.mapV acc.reverse, s)
      else
        match runF fuel (.one key) s with
        | .error e => .error e
        | .ok (kv, r) =>
          match parsePunct ':' r with
          | .error e => .error e
          | .ok r1 =>
            match runF fuel (.one value) r1 with
            | .error e => .error e
            | .ok (vv, r2) =>
              match sepCheck [str "\x7d"] r2 with
              | .error e => .error e
              | .ok r3 => runF fuel (.mapP key value ((kv, vv) :: acc)) r3

/-- Decode one value of the given schema from the input, with fuel that is
always sufficient for the input's length. -/
def decode (sch : Schema) (s : List Char) : Except Err (DVal × List Char) :=
  runF (2 * s.length + 4) (.one sch) s

/-- `Deserializer::end`: lex one token from the live lexer (this advances the
cursor) and require it to be `Eof`.  The returned list is the lexer state
after the call: on a lexer error the speculative parse is rolled back, so
only the whitespace skip remains. -/
def endD (s : List Char) : Except Err Unit × List Char :=
  match parseToken s with
  | .ok (t, r) =>
    if t.kind = .eof then (.ok (), r)
    else (.error (.lexer ⟨t.value, .token .eof⟩), r)
  | .error e => (.error (.lexer e), skipWs s)

/-- A list consisting solely of whitespace characters. -/
def AllWs (ws : List Char) : Prop := ∀ c ∈ ws, isRustWs c = true

instance (ws : List Char) : Decidable (AllWs ws) := by
  unfold AllWs
  infer_instance

/-! ## Token streams

Two inputs are stream-equal when the lexer produces the same sequence of
tokens (same kinds, same spans) from both.  The decoder consumes its input
only through `parse_token`, so stream-equal inputs decode to the same value;
in particular the whitespace between tokens never influences the result. -/

/-- One entry of an input's token stream: a token, or the lexer error that
ends the stream. -/
inductive TraceEntry where
  | tok (k : TokenKind) (v : List Char)
  | err (e : LexErr)
deriving DecidableEq

/-- The first `n` entries of the token stream of an input. -/
def trace : Nat → List Char → List TraceEntry
  | 0, _ => []
  | n + 1, s =>
    match parseToken s with
    | .ok (t, r) => .tok t.kind t.value :: (if t.kind = .eof then [] else trace n r)
    | .error e => [.err e]

/-- Two inputs carry the same token stream. -/
def StreamEq (s s' : List Char) : Prop := ∀ n, trace n s = trace n s'

/-- Relation between decoder results over stream-equal inputs: both fail, or
both succeed with the same value and stream-equal remaining inputs. -/
def SimV {α : Type} : Except Err (α × List Char) → Except Err (α × List Char) → Prop
  | .error _, .error _ => True
  | .ok (a, r), .ok (a', r') => a = a' ∧ StreamEq r r'
  | _, _ => False

/-- As `SimV`, for primitives returning only the remaining input. -/
def SimSt : Except Err (List Char) → Except Err (List Char) → Prop
  | .error _, .error _ => True
  | .ok r, .ok r' => StreamEq r r'
  | _, _ => False

/-- As `SimV`, for `parse_integer`: the spans may differ (they cover the
whitespace between a sign and its digits) but sign and digits agree. -/
def SimInt : Except Err (IntLit × List Char) → Except Err (IntLit × List Char) → Prop
  | .error _, .error _ => True
  | .ok (il, r), .ok (il', r') =>
      il.sign = il'.sign ∧ il.value = il'.value ∧ StreamEq r r'
  | _, _ => False

/-! ## General lemmas about the lexer -/

theorem skipWs_append (ws s : List Char) (h : AllWs ws) :
    skipWs (ws ++ s) = skipWs s := by
  induction ws with
  | nil => rfl
  | cons c cs ih =>
    have hc : isRustWs c = true := h c (by simp)
    simp only [skipWs, List.cons_append, List.dropWhile_cons, hc, if_true]
    exact ih fun c' hc' => h c' (by simp [hc'])

/-- Every token fetch first skips all leading whitespace: prepending
whitespace to the remaining input does not change `parse_token`'s result. -/
theorem parseToken_ws (ws s : List Char) (h : AllWs ws) :
    parseToken (ws ++ s) = parseToken s := by
  simp only [parseToken, skipWs_append ws s h]

theorem peekT_ws (ws s : List Char) (h : AllWs ws) :
    peekT (ws ++ s) = peekT s := by
  simp only [peekT, parseToken_ws ws s h]

theorem parseIdentE_ws (ws s : List Char) (h : AllWs ws) :
    parseIdentE (ws ++ s) = parseIdentE s := by
  simp only [parseIdentE, parseToken_ws ws s h]

theorem parseIdentExact_ws (expected ws s : List Char) (h : AllWs ws) :
    parseIdentExact expected (ws ++ s) = parseIdentExact expected s := by
  simp only [parseIdentExact, parseToken_ws ws s h]

theorem parsePunctEx_ws (e : Expected) (check : List Char → Bool)
    (ws s : List Char) (h : AllWs ws) :
    parsePunctEx e check (ws ++ s) = parsePunctEx e check s := by
  simp only [parsePunctEx, parseToken_ws ws s h]

theorem parsePunct_ws (c : Char) (ws s : List Char) (h : AllWs ws) :
    parsePunct c (ws ++ s) = parsePunct c s := by
  simp only [parsePunct, parsePunctEx_ws _ _ ws s h]

theorem parseInteger_ws (ws s : List Char) (h : AllWs ws) :
    parseInteger (ws ++ s) = parseInteger s := by
  simp only [parseInteger, parseToken_ws ws s h]

theorem dUnsigned_ws (w : Nat) (ws s : List Char) (h : AllWs ws) :
    dUnsigned w (ws ++ s) = dUnsigned w s := by
  simp only [dUnsigned, parseInteger_ws ws s h]

theorem dSigned_ws (w : Nat) (ws s : List Char) (h : AllWs ws) :
    dSigned w (ws ++ s) = dSigned w s := by
  simp only [dSigned, parseInteger_ws ws s h]

/-- Whitespace in front of the input in which a value is decoded is
invisible: every `deserialize_*` entry point starts with a token fetch, and
token fetches skip leading whitespace. -/
theorem runF_one_ws (fuel : Nat) (sch : Schema) (ws s : List Char)
    (h : AllWs ws) :
    runF fuel (.one sch) (ws ++ s) = runF fuel (.one sch) s := by
  cases fuel with
  | zero => rfl
  | succ f =>
    cases sch with
    | uint w => exact dUnsigned_ws w ws s h
    | sint w => exact dSigned_ws w ws s h
    | option elem =>
      simp only [runF, parseIdentE_ws ws s h]
    | seq elem =>
      simp only [runF, parsePunctEx_ws _ _ ws s h]
    | tuple elems =>
      simp only [runF, parsePunct_ws _ ws s h]
    | structS name fields =>
      simp only [runF, parseIdentExact_ws _ ws s h]
    | mapS key value =>
      simp only [runF, parsePunct_ws _ ws s h]

theorem parseStringTk_kind {s : List Char} {k : TokenKind} {r : List Char}
    (h : parseStringTk s = .ok (k, r)) : k = .string := by
  simp only [parseStringTk] at h
  split at h <;> try (split at h)
  all_goals simp_all

theorem parseCharTk_kind {s : List Char} {k : TokenKind} {r : List Char}
    (h : parseCharTk s = .ok (k, r)) : k = .char := by
  simp only [parseCharTk] at h
  split at h <;> try (split at h)
  all_goals simp_all

theorem parseIdentTk_kind {s : List Char} {k : TokenKind} {r : List Char}
    (h : parseIdentTk s = .ok (k, r)) : k = .ident := by
  simp only [parseIdentTk] at h
  split at h <;> try (split at h)
  all_goals simp_all

theorem parseNumberTail_kind {s : List Char} {k : TokenKind} {r : List Char}
    (h : parseNumberTail s = .ok (k, r)) : k = .integer ∨ k = .float := by
  simp only [parseNumberTail] at h
  split at h
  all_goals try (split at h)
  all_goals try (split at h)
  all_goals try (split at h)
  all_goals try (split at h)
  all_goals try (split at h)
  all_goals simp_all

theorem parseNumberTk_kind {s : List Char} {k : TokenKind} {r : List Char}
    (h : parseNumberTk s = .ok (k, r)) : k = .integer ∨ k = .float := by
  simp only [parseNumberTk] at h
  repeat' split at h
  all_goals first
    | exact parseNumberTail_kind h
    | simp_all

theorem parseDotdotTk_kind {s : List Char} {k : TokenKind} {r : List Char}
    (h : parseDotdotTk s = .ok (k, r)) : k = .punct := by
  simp only [parseDotdotTk] at h
  split at h <;> try (split at h)
  all_goals simp_all

/-- The only way `parse_token`'s dispatch yields `Eof` is the empty-input
branch, which consumes nothing. -/
theorem parseTokenKind_eof {d : List Char} {r : List Char}
    (h : parseTokenKind d = .ok (.eof, r)) : d = [] ∧ r = [] := by
  match d with
  | [] =>
    simp only [parseTokenKind] at h
    simp_all
  | c :: rest =>
    simp only [parseTokenKind] at h
    split at h
    · exact absurd (parseStringTk_kind h) (by simp)
    · split at h
      · exact absurd (parseCharTk_kind h) (by simp)
      · split at h
        · rcases parseNumberTk_kind h with h' | h' <;> simp at h'
        · split at h
          · exact absurd (parseIdentTk_kind h) (by simp)
          · split at h
            · exact absurd (parseDotdotTk_kind h) (by simp)
            · split at h <;> simp_all

/-- An `Eof` token is only produced when nothing but whitespace remains; it
has an empty span and leaves nothing behind. -/
theorem parseToken_eof {s : List Char} {t : Token} {r : List Char}
    (h : parseToken s = .ok (t, r)) (hk : t.kind = .eof) :
    skipWs s = [] ∧ r = [] ∧ t.value = [] := by
  simp only [parseToken] at h
  split at h
  case h_1 k rest heq =>
    cases h
    cases hk
    obtain ⟨hd, hr⟩ := parseTokenKind_eof heq
    simp [hd, hr]
  case h_2 => cases h

/-- On whitespace-only input, `parse_token` returns the `Eof` token. -/
theorem parseToken_of_wsOnly {s : List Char} (h : skipWs s = []) :
    parseToken s = .ok (⟨.eof, []⟩, []) := by
  simp only [parseToken, h]
  rfl

/-! ## Sign handling lemmas (`parse_integer`, `deserialize_(un)signed`) -/

theorem parseToken_plus (s : List Char) :
    parseToken ('+' :: s) = .ok (⟨.punct, ['+']⟩, s) := by
  have h1 : skipWs ('+' :: s) = '+' :: s := rfl
  have h2 : parseTokenKind ('+' :: s) = .ok (.punct, s) := rfl
  simp only [parseToken, h1, h2]
  simp [Nat.add_sub_cancel_left]

theorem parseToken_minus (s : List Char) :
    parseToken ('-' :: s) = .ok (⟨.punct, ['-']⟩, s) := by
  have h1 : skipWs ('-' :: s) = '-' :: s := rfl
  have h2 : parseTokenKind ('-' :: s) = .ok (.punct, s) := rfl
  simp only [parseToken, h1, h2]
  simp [Nat.add_sub_cancel_left]

theorem parseInteger_noSign {s : List Char} {t : Token} {r : List Char}
    (ht : parseToken s = .ok (t, r)) (hk : t.kind = .integer) :
    parseInteger s = .ok (⟨.positive, t.value, t.value⟩, r) := by
  simp [parseInteger, ht, hk]

theorem parseInteger_plus {s : List Char} {t : Token} {r : List Char}
    (ht : parseToken s = .ok (t, r)) (hk : t.kind = .integer) :
    parseInteger ('+' :: s) =
      .ok (⟨.positive, t.value, '+' :: s.take (s.length - r.length)⟩, r) := by
  simp [parseInteger, parseToken_plus, ht, hk, str]

theorem parseInteger_minus {s : List Char} {t : Token} {r : List Char}
    (ht : parseToken s = .ok (t, r)) (hk : t.kind = .integer) :
    parseInteger ('-' :: s) =
      .ok (⟨.negative, t.value, '-' :: s.take (s.length - r.length)⟩, r) := by
  simp [parseInteger, parseToken_minus, ht, hk, str]

theorem fromStrRadixU_negOne (w : Nat) :
    fromStrRadixU w 10 (str "-1") = .error .invalidDigit := rfl

/-- C5 — For every unsigned-integer target, a leading `-` sign before an
integer literal is always rejected with a numeric error (the negative arm
parses `"-1"` as the unsigned type, which fails with `InvalidDigit`), and a
leading `+` sign is accepted and dropped: whenever the unsigned decode of
the unsigned literal alone succeeds, prepending `+` decodes to the same
value with the same remaining input. -/
theorem unsigned_sign_handling (w : Nat) (s : List Char) (t : Token)
    (r : List Char) (ht : parseToken s = .ok (t, r)) (hk : t.kind = .integer) :
    dUnsigned w ('-' :: s) =
      .error (.parseInt ('-' :: s.take (s.length - r.length)) .invalidDigit) ∧
    ∀ v r2, dUnsigned w s = .ok (v, r2) →
      dUnsigned w ('+' :: s) = .ok (v, r2) := by
  constructor
  · simp only [dUnsigned, parseInteger_minus ht hk]
    rfl
  · intro v r2 hok
    simp only [dUnsigned, parseInteger_noSign ht hk] at hok
    simp only [dUnsigned, parseInteger_plus ht hk]
    split at hok
    · exact hok
    · exact absurd hok (by simp)

/-- C5 witness: `-1` against `u8` errors; `+255` against `u8` decodes to 255
just as `255` does. -/
theorem unsigned_sign_handling_witness :
    dUnsigned 8 ('-' :: str "1") =
      .error (.parseInt ('-' :: (str "1").take 1) .invalidDigit) ∧
    dUnsigned 8 ('+' :: str "255") = .ok (.uintV 255, []) := by
  have h := unsigned_sign_handling 8 (str "1") ⟨.integer, str "1"⟩ [] rfl rfl
  have h2 := unsigned_sign_handling 8 (str "255") ⟨.integer, str "255"⟩ [] rfl rfl
  exact ⟨h.1, h2.2 (.uintV 255) [] rfl⟩

/-- C10 — Signed-integer targets also accept a redundant leading `+` sign:
whenever the signed decode of an integer literal alone succeeds, prepending
a `+` punctuation token decodes to the same value with the same remaining
input (`parse_integer` consumes the sign and leaves the sign positive, just
as with no sign). -/
theorem signed_plus_sign (w : Nat) (s : List Char) (t : Token)
    (r : List Char) (ht : parseToken s = .ok (t, r)) (hk : t.kind = .integer) :
    ∀ v r2, dSigned w s = .ok (v, r2) →
      dSigned w ('+' :: s) = .ok (v, r2) := by
  intro v r2 hok
  simp only [dSigned, parseInteger_noSign ht hk] at hok
  simp only [dSigned, parseInteger_plus ht hk]
  split at hok
  · exact hok
  · exact absurd hok (by simp)

/-- C10 witness: `+5` against a 32-bit signed target yields 5, as `5` does. -/
theorem signed_plus_sign_witness :
    dSigned 32 ('+' :: str "5") = .ok (.intV 5, []) := by
  exact signed_plus_sign 32 (str "5") ⟨.integer, str "5"⟩ [] rfl rfl
    (.intV 5) [] rfl

/-- C8 counterexample — `end()` is not a pure query: with `}}` remaining, a
failing `end()` consumes the offending `}` (a non-whitespace token), so its
post-state is `}`; a second call consumes the second `}`, and a third call
then succeeds even though the first two failed. -/
theorem end_advances_on_failure :
    (endD (str "\x7d\x7d")).1 = .error (.lexer ⟨str "\x7d", .token .eof⟩) ∧
    (endD (str "\x7d\x7d")).2 = str "\x7d" ∧
    isRustWs '\x7d' = false ∧
    (endD (str "\x7d")).1 = .error (.lexer ⟨str "\x7d", .token .eof⟩) ∧
    (endD (str "\x7d")).2 = [] ∧
    (endD ([] : List Char)).1 = .ok () := by
  exact ⟨rfl, rfl, rfl, rfl, rfl, rfl⟩

/-- C8 amended — `end()` succeeds iff only whitespace remains ahead of the
cursor; a successful `end()` consumes only that whitespace, so after full
consumption a second `end()` also succeeds.  (A failing `end()`, however,
consumes the offending token, so failure is not repeatable in general.) -/
theorem end_ok_iff_whitespace : ∀ s : List Char,
    ((endD s).1 = .ok () ↔ skipWs s = []) ∧
    ((endD s).1 = .ok () →
      (endD s).2 = [] ∧ (endD ((endD s).2)).1 = .ok ()) := by
  intro s
  have hiff : (endD s).1 = .ok () ↔ skipWs s = [] := by
    constructor
    · intro h
      cases hpt : parseToken s with
      | ok tr =>
        obtain ⟨t, r⟩ := tr
        by_cases hk : t.kind = .eof
        · exact (parseToken_eof hpt hk).1
        · simp only [endD, hpt] at h
          simp [hk] at h
      | error e =>
        simp only [endD, hpt] at h
        simp at h
    · intro h
      simp only [endD, parseToken_of_wsOnly h]
      rfl
  refine ⟨hiff, fun h => ?_⟩
  have hws := hiff.mp h
  have h1 : endD s = (.ok (), []) := by
    simp only [endD, parseToken_of_wsOnly hws]
    rfl
  rw [h1]
  exact ⟨rfl, rfl⟩

/-- C8 amended witness: on the whitespace-only input `" "`, `end()` succeeds
and a second `end()` on the resulting state succeeds as well. -/
theorem end_ok_iff_whitespace_witness :
    (endD (str " ")).1 = .ok () ∧ (endD ((endD (str " ")).2)).1 = .ok () := by
  have h := end_ok_iff_whitespace (str " ")
  have hok : (endD (str " ")).1 = .ok () := h.1.mpr rfl
  exact ⟨hok, (h.2 hok).2⟩

theorem streamEq_refl (s : List Char) : StreamEq s s := fun _ => rfl

theorem trace_one (s : List Char) :
    trace 1 s = match parseToken s with
      | .ok (t, _) => [.tok t.kind t.value]
      | .error e => [.err e] := by
  simp only [trace]
  split <;> simp

/-- Stream-equal inputs fail the lexer identically. -/
theorem streamEq_error {s s' : List Char} {e : LexErr} (h : StreamEq s s')
    (he : parseToken s = .error e) : parseToken s' = .error e := by
  have h1 := (trace_one s).symm.trans ((h 1).trans (trace_one s'))
  rw [he] at h1
  cases hp : parseToken s' with
  | ok tr => rw [hp] at h1; simp at h1
  | error e' => rw [hp] at h1; simp_all

/-- Stream-equal inputs produce the same next token, and the remaining
inputs are stream-equal again. -/
theorem streamEq_ok {s s' : List Char} {t : Token} {r : List Char}
    (h : StreamEq s s') (hok : parseToken s = .ok (t, r)) :
    ∃ r', parseToken s' = .ok (t, r') ∧ StreamEq r r' := by
  have h1 := (trace_one s).symm.trans ((h 1).trans (trace_one s'))
  rw [hok] at h1
  cases hp : parseToken s' with
  | error e => rw [hp] at h1; simp at h1
  | ok tr' =>
    obtain ⟨t', r'⟩ := tr'
    rw [hp] at h1
    simp only [TraceEntry.tok.injEq, List.cons.injEq, and_true] at h1
    obtain ⟨hkind, hvalue⟩ := h1
    have htt : t = t' := by
      cases t; cases t'; simp_all
    subst htt
    refine ⟨r', rfl, ?_⟩
    by_cases hk : t.kind = .eof
    · obtain ⟨-, hr, -⟩ := parseToken_eof hok hk
      obtain ⟨-, hr', -⟩ := parseToken_eof hp hk
      subst hr hr'
      exact streamEq_refl []
    · intro n
      have hn := h (n + 1)
      simp only [trace, hok, hp, hk, if_false] at hn
      simpa using hn

theorem SimV_cases {α : Type} {x y : Except Err (α × List Char)}
    (h : SimV x y) :
    (∃ e e', x = .error e ∧ y = .error e') ∨
    (∃ a r r', x = .ok (a, r) ∧ y = .ok (a, r') ∧ StreamEq r r') := by
  match x, y with
  | .error e, .error e' => exact .inl ⟨e, e', rfl, rfl⟩
  | .ok (a, r), .ok (a', r') =>
    obtain ⟨ha, hr⟩ := h
    subst ha
    exact .inr ⟨a, r, r', rfl, rfl, hr⟩
  | .error _, .ok _ => exact absurd h (by simp [SimV])
  | .ok (a, r), .error _ => exact absurd h (by simp [SimV])

theorem SimSt_cases {x y : Except Err (List Char)} (h : SimSt x y) :
    (∃ e e', x = .error e ∧ y = .error e') ∨
    (∃ r r', x = .ok r ∧ y = .ok r' ∧ StreamEq r r') := by
  match x, y with
  | .error e, .error e' => exact .inl ⟨e, e', rfl, rfl⟩
  | .ok r, .ok r' => exact .inr ⟨r, r', rfl, rfl, h⟩
  | .error _, .ok _ => exact absurd h (by simp [SimSt])
  | .ok r, .error _ => exact absurd h (by simp [SimSt])

theorem SimInt_cases {x y : Except Err (IntLit × List Char)} (h : SimInt x y) :
    (∃ e e', x = .error e ∧ y = .error e') ∨
    (∃ il il' r r', x = .ok (il, r) ∧ y = .ok (il', r') ∧
      il.sign = il'.sign ∧ il.value = il'.value ∧ StreamEq r r') := by
  match x, y with
  | .error e, .error e' => exact .inl ⟨e, e', rfl, rfl⟩
  | .ok (il, r), .ok (il', r') =>
    obtain ⟨hs, hv, hr⟩ := h
    exact .inr ⟨il, il', r, r', rfl, rfl, hs, hv, hr⟩
  | .error _, .ok _ => exact absurd h (by simp [SimInt])
  | .ok (il, r), .error _ => exact absurd h (by simp [SimInt])

theorem peekT_sim {s s' : List Char} (h : StreamEq s s') : peekT s = peekT s' := by
  cases hx : parseToken s with
  | ok tr =>
    obtain ⟨t, r⟩ := tr
    obtain ⟨r', hy, -⟩ := streamEq_ok h hx
    simp [peekT, hx, hy]
  | error e =>
    have hy := streamEq_error h hx
    simp [peekT, hx, hy]

theorem parseIdentE_sim {s s' : List Char} (h : StreamEq s s') :
    SimV (parseIdentE s) (parseIdentE s') := by
  cases hx : parseToken s with
  | ok tr =>
    obtain ⟨t, r⟩ := tr
    obtain ⟨r', hy, hrr⟩ := streamEq_ok h hx
    simp only [parseIdentE, hx, hy]
    split
    · exact ⟨rfl, hrr⟩
    · trivial
  | error e =>
    have hy := streamEq_error h hx
    simp only [parseIdentE, hx, hy]
    trivial

theorem parseIdentExact_sim {s s' : List Char} (expected : List Char)
    (h : StreamEq s s') :
    SimSt (parseIdentExact expected s) (parseIdentExact expected s') := by
  cases hx : parseToken s with
  | ok tr =>
    obtain ⟨t, r⟩ := tr
    obtain ⟨r', hy, hrr⟩ := streamEq_ok h hx
    simp only [parseIdentExact, hx, hy]
    split
    · split
      · exact hrr
      · trivial
    · trivial
  | error e =>
    have hy := streamEq_error h hx
    simp only [parseIdentExact, hx, hy]
    trivial

theorem parsePunctEx_sim {s s' : List Char} (expected : Expected)
    (check : List Char → Bool) (h : StreamEq s s') :
    SimV (parsePunctEx expected check s) (parsePunctEx expected check s') := by
  cases hx : parseToken s with
  | ok tr =>
    obtain ⟨t, r⟩ := tr
    obtain ⟨r', hy, hrr⟩ := streamEq_ok h hx
    simp only [parsePunctEx, hx, hy]
    split
    · split
      · exact ⟨rfl, hrr⟩
      · trivial
    · trivial
  | error e =>
    have hy := streamEq_error h hx
    simp only [parsePunctEx, hx, hy]
    trivial

theorem parsePunct_sim {s s' : List Char} (c : Char) (h : StreamEq s s') :
    SimSt (parsePunct c s) (parsePunct c s') := by
  rcases SimV_cases (parsePunctEx_sim (.punctE c) (· = [c]) h) with
    ⟨e, e', hx, hy⟩ | ⟨a, r, r', hx, hy, hrr⟩
  · simp only [parsePunct, hx, hy]
    trivial
  · simp only [parsePunct, hx, hy]
    exact hrr

theorem parseInteger_sim {s s' : List Char} (h : StreamEq s s') :
    SimInt (parseInteger s) (parseInteger s') := by
  cases hx : parseToken s with
  | error e =>
    have hy := streamEq_error h hx
    simp only [parseInteger, hx, hy]
    trivial
  | ok tr =>
    obtain ⟨t, r⟩ := tr
    obtain ⟨r', hy, hrr⟩ := streamEq_ok h hx
    simp only [parseInteger, hx, hy]
    split
    · cases hx2 : parseToken r with
      | error e =>
        have hy2 := streamEq_error hrr hx2
        simp only [hx2, hy2]
        trivial
      | ok tr2 =>
        obtain ⟨t2, r2⟩ := tr2
        obtain ⟨r2', hy2, hrr2⟩ := streamEq_ok hrr hx2
        simp only [hx2, hy2]
        split
        · exact ⟨rfl, rfl, hrr2⟩
        · trivial
    · split
      · exact ⟨rfl, rfl, hrr⟩
      · trivial

theorem dUnsigned_sim {s s' : List Char} (w : Nat) (h : StreamEq s s') :
    SimV (dUnsigned w s) (dUnsigned w s') := by
  rcases SimInt_cases (parseInteger_sim h) with
    ⟨e, e', hx, hy⟩ | ⟨il, il', r, r', hx, hy, hs, hv, hrr⟩
  · simp only [dUnsigned, hx, hy]
    trivial
  · simp only [dUnsigned, hx, hy, hs, hv]
    split
    · exact ⟨rfl, hrr⟩
    · trivial

theorem dSigned_sim {s s' : List Char} (w : Nat) (h : StreamEq s s') :
    SimV (dSigned w s) (dSigned w s') := by
  rcases SimInt_cases (parseInteger_sim h) with
    ⟨e, e', hx, hy⟩ | ⟨il, il', r, r', hx, hy, hs, hv, hrr⟩
  · simp only [dSigned, hx, hy]
    trivial
  · simp only [dSigned, hx, hy, hs, hv]
    split
    · exact ⟨rfl, hrr⟩
    · trivial

theorem sepCheck_sim {s s' : List Char} (closers : List (List Char))
    (h : StreamEq s s') : SimSt (sepCheck closers s) (sepCheck closers s') := by
  simp only [sepCheck, peekT_sim h]
  cases hy : peekT s' with
  | error e =>
    simp only [hy]
    trivial
  | ok t =>
    simp only [hy]
    split
    · exact h
    · exact parsePunct_sim ',' h

/-- The decoder consumes its input only through `parse_token`; consequently
stream-equal inputs decode identically: both fail, or both succeed with the
same value and stream-equal remainders. -/
theorem runF_sim : ∀ (fuel : Nat) (req : Req) (s s' : List Char),
    StreamEq s s' → SimV (runF fuel req s) (runF fuel req s')
  | 0, _, _, _, _ => by trivial
  | fuel + 1, .one sch, s, s', h => by
    cases sch with
    | uint w => exact dUnsigned_sim w h
    | sint w => exact dSigned_sim w h
    | option elem =>
      rcases SimV_cases (parseIdentE_sim h) with
        ⟨e, e', hx, hy⟩ | ⟨id, r, r', hx, hy, hrr⟩
      · simp only [runF, hx, hy]
        trivial
      · simp only [runF, hx, hy]
        by_cases hsome : id = str "Some"
        · simp only [if_pos hsome]
          rcases SimSt_cases (parsePunct_sim '\x7b' hrr) with
            ⟨e1, e1', hx1, hy1⟩ | ⟨r1, r1', hx1, hy1, hrr1⟩
          · simp only [hx1, hy1]
            trivial
          · simp only [hx1, hy1]
            rcases SimV_cases (runF_sim fuel (.one elem) r1 r1' hrr1) with
              ⟨e2, e2', hx2, hy2⟩ | ⟨v, r2, r2', hx2, hy2, hrr2⟩
            · simp only [hx2, hy2]
              trivial
            · simp only [hx2, hy2]
              rcases SimSt_cases (parsePunct_sim '\x7d' hrr2) with
                ⟨e3, e3', hx3, hy3⟩ | ⟨r3, r3', hx3, hy3, hrr3⟩
              · simp only [hx3, hy3]
                trivial
              · simp only [hx3, hy3]
                exact ⟨rfl, hrr3⟩
        · by_cases hnone : id = str "None"
          · simp only [if_neg hsome, if_pos hnone]
            exact ⟨rfl, hrr⟩
          · simp only [if_neg hsome, if_neg hnone]
            trivial
    | seq elem =>
      rcases SimV_cases (parsePunctEx_sim (.custom (str "`[` or `\x7b`"))
          (fun v => v = str "[" ∨ v = str "\x7b") h) with
        ⟨e, e', hx, hy⟩ | ⟨opener, r, r', hx, hy, hrr⟩
      · simp only [runF, hx, hy]
        trivial
      · simp only [runF, hx, hy]
        rcases SimV_cases (runF_sim fuel (.seqE elem []) r r' hrr) with
          ⟨e1, e1', hx1, hy1⟩ | ⟨v, r1, r1', hx1, hy1, hrr1⟩
        · simp only [hx1, hy1]
          trivial
        · simp only [hx1, hy1]
          rcases SimSt_cases
              (parsePunct_sim (if opener = str "[" then ']' else '\x7d') hrr1) with
            ⟨e2, e2', hx2, hy2⟩ | ⟨r2, r2', hx2, hy2, hrr2⟩
          · simp only [hx2, hy2]
            trivial
          · simp only [hx2, hy2]
            exact ⟨rfl, hrr2⟩
    | tuple elems =>
      rcases SimSt_cases (parsePunct_sim '(' h) with
        ⟨e, e', hx, hy⟩ | ⟨r, r', hx, hy, hrr⟩
      · simp only [runF, hx, hy]
        trivial
      · simp only [runF, hx, hy]
        rcases SimV_cases (runF_sim fuel (.tupE elems []) r r' hrr) with
          ⟨e1, e1', hx1, hy1⟩ | ⟨v, r1, r1', hx1, hy1, hrr1⟩
        · simp only [hx1, hy1]
          trivial
        · simp only [hx1, hy1]
          rcases SimSt_cases (parsePunct_sim ')' hrr1) with
            ⟨e2, e2', hx2, hy2⟩ | ⟨r2, r2', hx2, hy2, hrr2⟩
          · simp only [hx2, hy2]
            trivial
          · simp only [hx2, hy2]
            exact ⟨rfl, hrr2⟩
    | structS name fields =>
      rcases SimSt_cases (parseIdentExact_sim name h) with
        ⟨e, e', hx, hy⟩ | ⟨r, r', hx, hy, hrr⟩
      · simp only [runF, hx, hy]
        trivial
      · simp only [runF, hx, hy]
        rcases SimSt_cases (parsePunct_sim '\x7b' hrr) with
          ⟨e1, e1', hx1, hy1⟩ | ⟨r1, r1', hx1, hy1, hrr1⟩
        · simp only [hx1, hy1]
          trivial
        · simp only [hx1, hy1]
          rcases SimV_cases (runF_sim fuel (.strF fields []) r1 r1' hrr1) with
            ⟨e2, e2', hx2, hy2⟩ | ⟨v, r2, r2', hx2, hy2, hrr2⟩
          · simp only [hx2, hy2]
            trivial
          · simp only [hx2, hy2]
            rcases SimSt_cases (parsePunct_sim '\x7d' hrr2) with
              ⟨e3, e3', hx3, hy3⟩ | ⟨r3, r3', hx3, hy3, hrr3⟩
            · simp only [hx3, hy3]
              trivial
            · simp only [hx3, hy3]
              exact ⟨rfl, hrr3⟩
    | mapS key value =>
      rcases SimSt_cases (parsePunct_sim '\x7b' h) with
        ⟨e, e', hx, hy⟩ | ⟨r, r', hx, hy, hrr⟩
      · simp only [runF, hx, hy]
        trivial
      · simp only [runF, hx, hy]
        rcases SimV_cases (runF_sim fuel (.mapP key value []) r r' hrr) with
          ⟨e1, e1', hx1, hy1⟩ | ⟨v, r1, r1', hx1, hy1, hrr1⟩
        · simp only [hx1, hy1]
          trivial
        · simp only [hx1, hy1]
          rcases SimSt_cases (parsePunct_sim '\x7d' hrr1) with
            ⟨e2, e2', hx2, hy2⟩ | ⟨r2, r2', hx2, hy2, hrr2⟩
          · simp only [hx2, hy2]
            trivial
          · simp only [hx2, hy2]
            exact ⟨rfl, hrr2⟩
  | fuel + 1, .seqE elem acc, s, s', h => by
    simp only [runF, peekT_sim h]
    cases hy : peekT s' with
    | error e =>
      simp only [hy]
      trivial
    | ok t =>
      simp only [hy]
      split
      · exact ⟨rfl, h⟩
      · rcases SimV_cases (runF_sim fuel (.one elem) s s' h) with
          ⟨e1, e1', hx1, hy1⟩ | ⟨v, r1, r1', hx1, hy1, hrr1⟩
        · simp only [hx1, hy1]
          trivial
        · simp only [hx1, hy1]
          rcases SimSt_cases (sepCheck_sim [str "]", str "\x7d"] hrr1) with
            ⟨e2, e2', hx2, hy2⟩ | ⟨r2, r2', hx2, hy2, hrr2⟩
          · simp only [hx2, hy2]
            trivial
          · simp only [hx2, hy2]
            exact runF_sim fuel (.seqE elem (v :: acc)) r2 r2' hrr2
  | fuel + 1, .tupE elems acc, s, s', h => by
    cases elems with
    | nil =>
      simp only [runF]
      exact ⟨rfl, h⟩
    | cons elem rest =>
      simp only [runF, peekT_sim h]
      cases hy : peekT s' with
      | error e =>
        simp only [hy]
        trivial
      | ok t =>
        simp only [hy]
        split
        · trivial
        · rcases SimV_cases (runF_sim fuel (.one elem) s s' h) with
            ⟨e1, e1', hx1, hy1⟩ | ⟨v, r1, r1', hx1, hy1, hrr1⟩
          · simp only [hx1, hy1]
            trivial
          · simp only [hx1, hy1]
            rcases SimSt_cases (sepCheck_sim [str ")"] hrr1) with
              ⟨e2, e2', hx2, hy2⟩ | ⟨r2, r2', hx2, hy2, hrr2⟩
            · simp only [hx2, hy2]
              trivial
            · simp only [hx2, hy2]
              exact runF_sim fuel (.tupE rest (v :: acc)) r2 r2' hrr2
  | fuel + 1, .strF fields acc, s, s', h => by
    simp only [runF, peekT_sim h]
    cases hy : peekT s' with
    | error e =>
      simp only [hy]
      trivial
    | ok t =>
      simp only [hy]
      split
      · cases fields with
        | nil => exact ⟨rfl, h⟩
        | cons f rest => trivial
      · split
        · rcases SimV_cases (parsePunctEx_sim (.custom (str ".."))
              (· = str "..") h) with
            ⟨e1, e1', hx1, hy1⟩ | ⟨v, r1, r1', hx1, hy1, hrr1⟩
          · simp only [hx1, hy1]
            trivial
          · simp only [hx1, hy1]
            cases fields with
            | nil => exact ⟨rfl, hrr1⟩
            | cons f rest => trivial
        · cases fields with
          | nil => trivial
          | cons f rest =>
            obtain ⟨fname, fsch⟩ := f
            rcases SimV_cases (parseIdentE_sim h) with
              ⟨e1, e1', hx1, hy1⟩ | ⟨id, r1, r1', hx1, hy1, hrr1⟩
            · simp only [hx1, hy1]
              trivial
            · simp only [hx1, hy1]
              split
              · rcases SimSt_cases (parsePunct_sim ':' hrr1) with
                  ⟨e2, e2', hx2, hy2⟩ | ⟨r2, r2', hx2, hy2, hrr2⟩
                · simp only [hx2, hy2]
                  trivial
                · simp only [hx2, hy2]
                  rcases SimV_cases (runF_sim fuel (.one fsch) r2 r2' hrr2) with
                    ⟨e3, e3', hx3, hy3⟩ | ⟨v, r3, r3', hx3, hy3, hrr3⟩
                  · simp only [hx3, hy3]
                    trivial
                  · simp only [hx3, hy3]
                    rcases SimSt_cases (sepCheck_sim [str "\x7d"] hrr3) with
                      ⟨e4, e4', hx4, hy4⟩ | ⟨r4, r4', hx4, hy4, hrr4⟩
                    · simp only [hx4, hy4]
                      trivial
                    · simp only [hx4, hy4]
                      exact runF_sim fuel (.strF rest ((fname, v) :: acc)) r4 r4' hrr4
              · trivial
  | fuel + 1, .mapP key value acc, s, s', h => by
    simp only [runF, peekT_sim h]
    cases hy : peekT s' with
    | error e =>
      simp only [hy]
      trivial
    | ok t =>
      simp only [hy]
      split
      · exact ⟨rfl, h⟩
      · rcases SimV_cases (runF_sim fuel (.one key) s s' h) with
          ⟨e1, e1', hx1, hy1⟩ | ⟨kv, r1, r1', hx1, hy1, hrr1⟩
        · simp only [hx1, hy1]
          trivial
        · simp only [hx1, hy1]
          rcases SimSt_cases (parsePunct_sim ':' hrr1) with
            ⟨e2, e2', hx2, hy2⟩ | ⟨r2, r2', hx2, hy2, hrr2⟩
          · simp only [hx2, hy2]
            trivial
          · simp only [hx2, hy2]
            rcases SimV_cases (runF_sim fuel (.one value) r2 r2' hrr2) with
              ⟨e3, e3', hx3, hy3⟩ | ⟨vv, r3, r3', hx3, hy3, hrr3⟩
            · simp only [hx3, hy3]
              trivial
            · simp only [hx3, hy3]
              rcases SimSt_cases (sepCheck_sim [str "\x7d"] hrr3) with
                ⟨e4, e4', hx4, hy4⟩ | ⟨r4, r4', hx4, hy4, hrr4⟩
              · simp only [hx4, hy4]
                trivial
              · simp only [hx4, hy4]
                exact runF_sim fuel (.mapP key value ((kv, vv) :: acc)) r4 r4' hrr4

theorem streamEq_wsPrefix (ws s : List Char) (h : AllWs ws) :
    StreamEq (ws ++ s) s := by
  intro n
  cases n with
  | zero => rfl
  | succ n => simp only [trace, parseToken_ws ws s h]

/-! ## The claims -/

set_option maxRecDepth 10000

/-- C1 counterexample — against an 8-bit signed target, `0xFF` does not
decode to `-1`: `deserialize_signed` re-synthesizes `"+FF"` and runs it
through the overflow-checked signed parser, which rejects 255 > 127 with a
positive-overflow numeric error. -/
theorem signed_radix_cex :
    decode (.sint 8) (str "0xFF") =
      .error (.parseInt (str "0xFF") .posOverflow) ∧
    decode (.sint 8) (str "0xFF") ≠ .ok (.intV (-1), []) :=
  ⟨rfl, fun h => nomatch h⟩

/-- C1 amended — Radix equivalence for integer decoding: `0xFF`, `0o377`,
`0b11111111` and `255` each decode to the unsigned value 255 against every
unsigned target width (8, 16, 32, 64, 128); against an 8-bit signed target a
radix-prefixed literal is parsed as a sign-applied magnitude with overflow
checking, so `0xFF` fails with a numeric (positive-overflow) error rather
than denoting the two's-complement bit pattern `-1`; and `256` against an
8-bit target of either signedness fails with a numeric error. -/
theorem radix_equivalence_amended :
    decode (.uint 8) (str "0xFF") = .ok (.uintV 255, []) ∧
    decode (.uint 8) (str "0o377") = .ok (.uintV 255, []) ∧
    decode (.uint 8) (str "0b11111111") = .ok (.uintV 255, []) ∧
    decode (.uint 8) (str "255") = .ok (.uintV 255, []) ∧
    decode (.uint 16) (str "0xFF") = .ok (.uintV 255, []) ∧
    decode (.uint 16) (str "0o377") = .ok (.uintV 255, []) ∧
    decode (.uint 16) (str "0b11111111") = .ok (.uintV 255, []) ∧
    decode (.uint 16) (str "255") = .ok (.uintV 255, []) ∧
    decode (.uint 32) (str "0xFF") = .ok (.uintV 255, []) ∧
    decode (.uint 32) (str "0o377") = .ok (.uintV 255, []) ∧
    decode (.uint 32) (str "0b11111111") = .ok (.uintV 255, []) ∧
    decode (.uint 32) (str "255") = .ok (.uintV 255, []) ∧
    decode (.uint 64) (str "0xFF") = .ok (.uintV 255, []) ∧
    decode (.uint 64) (str "0o377") = .ok (.uintV 255, []) ∧
    decode (.uint 64) (str "0b11111111") = .ok (.uintV 255, []) ∧
    decode (.uint 64) (str "255") = .ok (.uintV 255, []) ∧
    decode (.uint 128) (str "0xFF") = .ok (.uintV 255, []) ∧
    decode (.uint 128) (str "0o377") = .ok (.uintV 255, []) ∧
    decode (.uint 128) (str "0b11111111") = .ok (.uintV 255, []) ∧
    decode (.uint 128) (str "255") = .ok (.uintV 255, []) ∧
    decode (.sint 8) (str "0xFF") =
      .error (.parseInt (str "0xFF") .posOverflow) ∧
    decode (.uint 8) (str "256") = .error (.parseInt (str "256") .posOverflow) ∧
    decode (.sint 8) (str "256") = .error (.parseInt (str "256") .posOverflow) :=
  ⟨rfl, rfl, rfl, rfl, rfl, rfl, rfl, rfl, rfl, rfl, rfl, rfl, rfl, rfl, rfl,
   rfl, rfl, rfl, rfl, rfl, rfl, rfl, rfl⟩

/-- C2 — `deserialize_signed` trims `'0'` from *both* ends of the digit text
(`trim_matches`, not a leading-zero trim), so the decimal literal `10`
against a 32-bit signed target decodes to 1, not 10, and `-0b101010` against
a 16-bit signed target decodes to -21, not -42 (the repository's own test
`test_complex_numeric_combinations` expects -42 here).  The scenario
`Point { x: 1, y: -2 }` is unaffected, because neither literal ends in a
zero digit. -/
theorem signed_trim_divergence :
    decode (.sint 32) (str "10") = .ok (.intV 1, []) ∧
    decode (.sint 16) (str "-0b101010") = .ok (.intV (-21), []) ∧
    decode (.structS (str "Point") [(str "x", .sint 32), (str "y", .sint 32)])
        (str "Point \x7b x: 1, y: -2 \x7d") =
      .ok (.structV [(str "x", .intV 1), (str "y", .intV (-2))], []) :=
  ⟨rfl, rfl, rfl⟩

/-- C3 — `deserialize_option` parses `Some` followed by `{` and `}`, not `(`
and `)`: `Some(42)` fails with a lexer error expecting `{` (although the
debug formatter renders options as `Some(42)` and the repository's own tests
round-trip that form), `Some{42}` succeeds, the bare identifier `None`
yields the none value, and any other identifier fails with an
unknown-variant error naming `Some` and `None`. -/
theorem option_syntax_divergence :
    decode (.option (.uint 32)) (str "Some(42)") =
      .error (.lexer ⟨str "(", .punctE '\x7b'⟩) ∧
    decode (.option (.uint 32)) (str "Some\x7b42\x7d") =
      .ok (.optV (some (.uintV 42)), []) ∧
    decode (.option (.uint 32)) (str "None") = .ok (.optV none, []) ∧
    decode (.option (.uint 32)) (str "Maybe(42)") =
      .error (.unknownVariant (str "Maybe") [str "Some", str "None"]) :=
  ⟨rfl, rfl, rfl, rfl⟩

/-- C4 — the escaped-quote check in `Lexer::parse_string` reads the byte at
offset `idx - 1` of the *already advanced* data instead of the byte
immediately preceding the quote, so `"a\"b"` lexes as the String token
`"a\"` (stopping at the escaped quote), with `b"` left over, not as one
token covering the whole quoted text; the input of the repository's own
lexer test `string_escaped_quotes` misbehaves the same way.  Escape-free
strings still span both delimiting quotes. -/
theorem string_escape_scan_divergence :
    parseToken (str "\x22a\x5c\x22b\x22") =
      .ok (⟨.string, str "\x22a\x5c\x22"⟩, str "b\x22") ∧
    parseToken (str "\x22hello \x5c\x22world\x5c\x22\x22") =
      .ok (⟨.string, str "\x22hello \x5c\x22"⟩, str "world\x5c\x22\x22") ∧
    parseToken (str "\x22test\x22 rest") =
      .ok (⟨.string, str "\x22test\x22"⟩, str " rest") :=
  ⟨rfl, rfl, rfl⟩

/-- C6 — Radix-digit validation is deferred from the lexer to numeric
reconstruction: `0b19` lexes as a single `Integer` token spanning the whole
literal (the lexer scans the hex-digit class after any radix prefix), and
decoding that token against an unsigned 8-bit target fails with an
invalid-digit numeric error carrying the literal. -/
theorem radix_digit_validation_deferred :
    parseToken (str "0b19") = .ok (⟨.integer, str "0b19"⟩, []) ∧
    decode (.uint 8) (str "0b19") =
      .error (.parseInt (str "0b19") .invalidDigit) :=
  ⟨rfl, rfl⟩

/-- C7 — Trailing comma tolerance in every composite form: a comma
immediately before the matching closing delimiter is accepted and ignored in
sequences, structs, maps and tuples; a trailing comma before a
*non-matching* closer still fails when the closer itself is checked, and a
comma not followed by an element or the closer fails. -/
theorem trailing_comma_tolerance :
    decode (.seq (.uint 32)) (str "[1, 2, 3,]") =
      .ok (.listV [.uintV 1, .uintV 2, .uintV 3], []) ∧
    decode (.structS (str "P") [(str "x", .uint 8)]) (str "P \x7b x: 1, \x7d") =
      .ok (.structV [(str "x", .uintV 1)], []) ∧
    decode (.mapS (.uint 8) (.uint 8)) (str "\x7b1: 2,\x7d") =
      .ok (.mapV [(.uintV 1, .uintV 2)], []) ∧
    decode (.tuple [.uint 8, .uint 8]) (str "(1, 2,)") =
      .ok (.tupleV [.uintV 1, .uintV 2], []) ∧
    decode (.seq (.uint 32)) (str "[1, 2,\x7d") =
      .error (.lexer ⟨str "\x7d", .punctE ']'⟩) ∧
    decode (.seq (.uint 32)) (str "[1,, 2]") =
      .error (.lexer ⟨str ",", .token .integer⟩) :=
  ⟨rfl, rfl, rfl, rfl, rfl, rfl⟩

/-- C9 — Whitespace insensitivity.  First: prepending spaces, tabs or
newlines to the input of any decode — and therefore to the input of any
recursive sub-decode, i.e. inserting whitespace at the cursor position in
front of any fetched token — leaves the decoder's result unchanged, because
every token fetch first skips all leading whitespace.  Second: no grammar
rule depends on the whitespace between tokens — any two inputs carrying the
same token stream decode to the same value. -/
theorem whitespace_insensitivity :
    (∀ (fuel : Nat) (sch : Schema) (ws s : List Char), AllWs ws →
      runF fuel (.one sch) (ws ++ s) = runF fuel (.one sch) s) ∧
    (∀ (fuel : Nat) (req : Req) (s s' : List Char), StreamEq s s' →
      SimV (runF fuel req s) (runF fuel req s')) :=
  ⟨runF_one_ws, runF_sim⟩

/-- C9 witness: prepending `"  "` to `"42"` decodes identically at `u8`, and
the stream-equal inputs `" 42"` and `"42"` (whitespace inserted before the
token) simulate each other. -/
theorem whitespace_insensitivity_witness :
    runF 24 (.one (.uint 8)) (str "  42") = runF 24 (.one (.uint 8)) (str "42") ∧
    SimV (runF 24 (.one (.uint 8)) (str " 42"))
      (runF 24 (.one (.uint 8)) (str "42")) := by
  have h := whitespace_insensitivity
  constructor
  · have h1 := h.1 24 (.uint 8) (str "  ") (str "42") (by decide)
    have h2 : str "  " ++ str "42" = str "  42" := rfl
    rw [h2] at h1
    exact h1
  · exact h.2 24 (.one (.uint 8)) (str " 42") (str "42")
      (streamEq_wsPrefix (str " ") (str "42") (by decide))

end DbgFmt
